import Mathlib

/-!
Verification of the cachalot caching layer against its specification.

The development shallowly embeds the coordination logic of the library:
the JSON value domain and the platform JSON codec used by `serialize` /
`deserialize`, the `Record` envelope and `BaseStorage` operations
(`set`, `get`, `touch`, `getTags`, `isOutdated`, the offline command
queue), the manager layer (Read-Through hit path, Write-Through `set`,
Refresh-Ahead construction), the `Cache` facade dispatch and the
`WaitForResult` locked-key retrieve strategy.  Machine numbers are
modelled as `Int`/`Nat` (the library only computes with integral
millisecond timestamps and versions); the floating-point specials
`NaN`/`Infinity` appear as explicit atoms of the value domain because
the encoder treats them specially.
-/

namespace Cachalot

/-- Values of the scripting language's data model, restricted to the
fragment the cache layer manipulates: `undefined`, `null`, booleans,
integral numbers together with the non-finite atoms `NaN` and
`±Infinity`, strings, arrays and plain objects (field lists in
insertion order). -/
inductive JSVal : Type where
  | undef : JSVal
  | jnull : JSVal
  | jbool : Bool → JSVal
  | jnum : Int → JSVal
  | jnan : JSVal
  | jinf : JSVal
  | jninf : JSVal
  | jstr : String → JSVal
  | jarr : List JSVal → JSVal
  | jobj : List (String × JSVal) → JSVal

/-- Tests whether a value is the `undefined` atom. -/
def isUndef : JSVal → Bool
  | .undef => true
  | _ => false

/-- Decimal digit character for a digit value below ten. -/
def digitChar : Nat → Char
  | 0 => '0'
  | 1 => '1'
  | 2 => '2'
  | 3 => '3'
  | 4 => '4'
  | 5 => '5'
  | 6 => '6'
  | 7 => '7'
  | 8 => '8'
  | 9 => '9'
  | _ => '0'

/-- Decimal digit sequence of a natural number, most significant first,
as the platform's number-to-string conversion prints integral values. -/
def printNat (n : Nat) : List Char :=
  if n < 10 then [digitChar n]
  else printNat (n / 10) ++ [digitChar (n % 10)]
decreasing_by exact Nat.div_lt_self (by omega) (by omega)

/-- Decimal text of an integer, with a leading minus sign when negative. -/
def printInt : Int → List Char
  | .ofNat n => printNat n
  | .negSucc n => '-' :: printNat (n + 1)

/-- Lower-case hexadecimal digit character for a value below sixteen. -/
def hexChar (n : Nat) : Char :=
  if n < 10 then digitChar n
  else if n = 10 then 'a'
  else if n = 11 then 'b'
  else if n = 12 then 'c'
  else if n = 13 then 'd'
  else if n = 14 then 'e'
  else 'f'

/-- Escape sequence the JSON encoder emits for one character of a string:
quote and backslash get two-character escapes, the five named control
characters get their short forms, the remaining control characters get
a `\u00XX` escape, and every other character stands for itself. -/
def escChar (c : Char) : List Char :=
  if c = '"' then ['\\', '"']
  else if c = '\\' then ['\\', '\\']
  else if c = '\x08' then ['\\', 'b']
  else if c = '\x09' then ['\\', 't']
  else if c = '\x0a' then ['\\', 'n']
  else if c = '\x0c' then ['\\', 'f']
  else if c = '\x0d' then ['\\', 'r']
  else if c.toNat < 32 then ['\\', 'u', '0', '0', hexChar (c.toNat / 16), hexChar (c.toNat % 16)]
  else [c]

/-- Escaped body of a JSON string literal, including the closing quote. -/
def escBody : List Char → List Char
  | [] => ['"']
  | c :: cs => escChar c ++ escBody cs

/-- Full JSON string literal for a string value. -/
def printStr (s : String) : List Char :=
  '"' :: escBody s.data

mutual

/-- Text the platform JSON encoder produces for a value: `none` exactly
for `undefined` (the encoder returns no text), `"null"` for `NaN` and
the infinities, and the usual JSON text otherwise.  Modelled from the
spec §4.2 (the `serialize` module of the repository is absent from the
sources; only its tests remain): encoding is the canonical JSON text
form, `encode(undefined)` is absent, and Infinity and NaN encode to the
neutral null form. -/
def printVal : JSVal → Option (List Char)
  | .undef => none
  | .jnull => ['n', 'u', 'l', 'l']
  | .jbool true => ['t', 'r', 'u', 'e']
  | .jbool false => ['f', 'a', 'l', 's', 'e']
  | .jnum n => printInt n
  | .jnan => ['n', 'u', 'l', 'l']
  | .jinf => ['n', 'u', 'l', 'l']
  | .jninf => ['n', 'u', 'l', 'l']
  | .jstr s => printStr s
  | .jarr xs => '[' :: printElems xs
  | .jobj fs => '\x7b' :: printFields fs

/-- Text of an array element: an `undefined` element prints as `null`. -/
def printElemVal (v : JSVal) : List Char :=
  match printVal v with
  | none => ['n', 'u', 'l', 'l']
  | some t => t

/-- Text of an array body after the opening bracket, including the
closing bracket. -/
def printElems : List JSVal → List Char
  | [] => [']']
  | x :: xs => printElemVal x ++ printElemsRest xs

/-- Text of the remaining array elements, each preceded by a comma,
ending with the closing bracket. -/
def printElemsRest : List JSVal → List Char
  | [] => [']']
  | x :: xs => ',' :: (printElemVal x ++ printElemsRest xs)

/-- Text of an object body after the opening brace, including the
closing brace; members whose value is `undefined` are omitted, as the
JSON encoder drops them. -/
def printFields : List (String × JSVal) → List Char
  | [] => ['\x7d']
  | (k, v) :: fs =>
    if isUndef v then printFields fs
    else (printStr k ++ ':' :: printElemVal v) ++ printFieldsRest fs

/-- Text of the remaining object members, each preceded by a comma,
ending with the closing brace; `undefined`-valued members are omitted. -/
def printFieldsRest : List (String × JSVal) → List Char
  | [] => ['\x7d']
  | (k, v) :: fs =>
    if isUndef v then printFieldsRest fs
    else ',' :: ((printStr k ++ ':' :: printElemVal v) ++ printFieldsRest fs)

end

mutual

/-- Canonical form a value assumes after an encode/decode round trip:
`NaN` and the infinities collapse to `null`, `undefined` array elements
become `null`, and `undefined` object fields disappear. -/
def canon : JSVal → JSVal
  | .undef => .undef
  | .jnull => .jnull
  | .jbool b => .jbool b
  | .jnum n => .jnum n
  | .jnan => .jnull
  | .jinf => .jnull
  | .jninf => .jnull
  | .jstr s => .jstr s
  | .jarr xs => .jarr (canonElems xs)
  | .jobj fs => .jobj (canonFields fs)

/-- Canonical forms of array elements (`undefined` becomes `null`). -/
def canonElems : List JSVal → List JSVal
  | [] => []
  | x :: xs => (if isUndef x then .jnull else canon x) :: canonElems xs

/-- Canonical forms of object fields (`undefined`-valued ones dropped). -/
def canonFields : List (String × JSVal) → List (String × JSVal)
  | [] => []
  | (k, v) :: fs => if isUndef v then canonFields fs else (k, canon v) :: canonFields fs

end

mutual

/-- Holds when a value contains no `undefined` anywhere; this is the
image of the library's `RecordValue` type (`object | string | number |
null`). -/
def noUndef : JSVal → Bool
  | .undef => false
  | .jarr xs => noUndefList xs
  | .jobj fs => noUndefFields fs
  | _ => true

/-- List version of `noUndef` for array elements. -/
def noUndefList : List JSVal → Bool
  | [] => true
  | x :: xs => noUndef x && noUndefList xs

/-- Field-list version of `noUndef` for object members. -/
def noUndefFields : List (String × JSVal) → Bool
  | [] => true
  | (_, v) :: fs => noUndef v && noUndefFields fs

end

/-! ### The JSON reader

A recursive-descent reader for the texts the encoder produces, modelling
the platform `JSON.parse` on the integral fragment (fractional and
exponent notations are outside the cache layer's own output).  The
reader works on character lists and threads a fuel argument for
termination; one unit of fuel is spent per nesting step, and the text
round-trip lemmas below show that `length + 1` fuel always suffices on
encoder output. -/

/-- Numeric value of a decimal digit character. -/
def digitVal (c : Char) : Nat := c.toNat - 48

/-- Decides whether a character is a decimal digit. -/
def isDigitCh (c : Char) : Bool := 48 ≤ c.toNat && c.toNat ≤ 57

/-- Splits off the longest leading run of decimal digits. -/
def takeDigits : List Char → List Char × List Char
  | [] => ([], [])
  | c :: cs =>
    if isDigitCh c then
      let p := takeDigits cs
      (c :: p.1, p.2)
    else ([], c :: cs)

/-- Value of a most-significant-first digit sequence. -/
def natOfDigits (ds : List Char) : Nat :=
  ds.foldl (fun a c => 10 * a + digitVal c) 0

/-- Tests whether a character list starts with the given character. -/
def headIs (a : Char) : List Char → Bool
  | [] => false
  | c :: _ => c = a

/-- Reads a JSON number (integral fragment): an optional minus sign
followed by at least one digit. -/
def parseNum (cs : List Char) : Option (Int × List Char) :=
  if headIs '-' cs then
    match takeDigits cs.tail with
    | ([], _) => none
    | (ds, r) => some (-(natOfDigits ds : Int), r)
  else
    match takeDigits cs with
    | ([], _) => none
    | (ds, r) => some ((natOfDigits ds : Int), r)

/-- Numeric value of a hexadecimal digit character (0 on other input;
the reader is liberal there, as only encoder output is at stake). -/
def hexVal (c : Char) : Nat :=
  if 48 ≤ c.toNat && c.toNat ≤ 57 then c.toNat - 48
  else if 97 ≤ c.toNat && c.toNat ≤ 102 then c.toNat - 87
  else if 65 ≤ c.toNat && c.toNat ≤ 70 then c.toNat - 55
  else 0

/-- Character denoted by a two-character escape sequence, when legal. -/
def escDecode : Char → Option Char
  | '"' => some '"'
  | '\\' => some '\\'
  | '/' => some '/'
  | 'b' => some '\x08'
  | 'f' => some '\x0c'
  | 'n' => some '\x0a'
  | 'r' => some '\x0d'
  | 't' => some '\x09'
  | _ => none

/-- Reads the body of a JSON string literal after the opening quote,
returning the denoted characters and the text after the closing quote.
Raw control characters are rejected, escapes are decoded, and `\uXXXX`
denotes the scalar with that code. -/
def parseStrBody : List Char → Option (List Char × List Char)
  | [] => none
  | c :: cs =>
    if c = '"' then some ([], cs)
    else if c = '\\' then
      match cs with
      | [] => none
      | 'u' :: h1 :: h2 :: h3 :: h4 :: cs3 =>
        (parseStrBody cs3).map fun p =>
          (Char.ofNat (((hexVal h1 * 16 + hexVal h2) * 16 + hexVal h3) * 16 + hexVal h4) :: p.1,
            p.2)
      | e :: cs2 =>
        match escDecode e with
        | none => none
        | some d => (parseStrBody cs2).map fun p => (d :: p.1, p.2)
    else if c.toNat < 32 then none
    else (parseStrBody cs).map fun p => (c :: p.1, p.2)

/-- Strips an expected literal prefix off a text, yielding the
remainder when the text starts with it. -/
def stripPfx : List Char → List Char → Option (List Char)
  | [], cs => some cs
  | _ :: _, [] => none
  | p :: ps, c :: cs => if c = p then stripPfx ps cs else none

mutual

/-- Reads one JSON value from the front of the text.  Fuel bounds the
nesting depth explored; `none` on exhausted fuel or malformed text. -/
def parseVal : Nat → List Char → Option (JSVal × List Char)
  | 0, _ => none
  | _ + 1, [] => none
  | fuel + 1, c :: cs =>
    if c = 'n' then
      match stripPfx ['u', 'l', 'l'] cs with
      | some r => some (.jnull, r)
      | none => none
    else if c = 't' then
      match stripPfx ['r', 'u', 'e'] cs with
      | some r => some (.jbool true, r)
      | none => none
    else if c = 'f' then
      match stripPfx ['a', 'l', 's', 'e'] cs with
      | some r => some (.jbool false, r)
      | none => none
    else if c = '"' then
      (parseStrBody cs).map fun p => (.jstr (String.mk p.1), p.2)
    else if c = '[' then
      if headIs ']' cs then some (.jarr [], cs.tail)
      else (parseItems fuel cs).map fun p => (.jarr p.1, p.2)
    else if c = '\x7b' then
      if headIs '\x7d' cs then some (.jobj [], cs.tail)
      else (parseMembers fuel cs).map fun p => (.jobj p.1, p.2)
    else (parseNum (c :: cs)).map fun p => (.jnum p.1, p.2)

/-- Reads the elements of a non-empty JSON array body up to and past
the closing bracket. -/
def parseItems : Nat → List Char → Option (List JSVal × List Char)
  | 0, _ => none
  | fuel + 1, cs =>
    match parseVal (fuel + 1) cs with
    | none => none
    | some (v, r) =>
      if headIs ',' r then (parseItems fuel r.tail).map fun p => (v :: p.1, p.2)
      else if headIs ']' r then some ([v], r.tail)
      else none

/-- Reads the members of a non-empty JSON object body up to and past
the closing brace. -/
def parseMembers : Nat → List Char → Option (List (String × JSVal) × List Char)
  | 0, _ => none
  | fuel + 1, cs =>
    if headIs '"' cs then
      match parseStrBody cs.tail with
      | none => none
      | some (kcs, r) =>
        if headIs ':' r then
          match parseVal (fuel + 1) r.tail with
          | none => none
          | some (v, r3) =>
            if headIs ',' r3 then
              (parseMembers fuel r3.tail).map fun p => ((String.mk kcs, v) :: p.1, p.2)
            else if headIs '\x7d' r3 then some ([(String.mk kcs, v)], r3.tail)
            else none
        else none
    else none

end

/-! ### Round-trip of the JSON codec

The reader inverts the encoder.  The lemmas are stated liberally — the
printed text may be followed by arbitrary residue, provided the residue
does not begin with a digit (which could extend a printed number) — so
that they compose across array and object bodies. -/

/-- Residue constraint under which a printed value can be read back:
the following text must not begin with a decimal digit. -/
def numSafe : List Char → Prop
  | [] => True
  | c :: _ => isDigitCh c = false

theorem digitChar_digit {d : Nat} (h : d < 10) : isDigitCh (digitChar d) = true := by
  interval_cases d <;> decide

theorem digitVal_digitChar {d : Nat} (h : d < 10) : digitVal (digitChar d) = d := by
  interval_cases d <;> decide

theorem printNat_digits (n : Nat) : ∀ c ∈ printNat n, isDigitCh c = true := by
  induction n using Nat.strong_induction_on with
  | _ n ih =>
    intro c hc
    rw [printNat] at hc
    by_cases h : n < 10
    · simp [h] at hc
      exact hc ▸ digitChar_digit h
    · simp [h, List.mem_append] at hc
      rcases hc with hc | hc
      · exact ih (n / 10) (Nat.div_lt_self (by omega) (by omega)) c hc
      · exact hc ▸ digitChar_digit (Nat.mod_lt _ (by omega))

theorem printNat_ne_nil (n : Nat) : printNat n ≠ [] := by
  rw [printNat]
  by_cases h : n < 10 <;> simp [h]

theorem natOfDigits_append_one (ds : List Char) (c : Char) :
    natOfDigits (ds ++ [c]) = 10 * natOfDigits ds + digitVal c := by
  simp [natOfDigits, List.foldl_append]

theorem natOfDigits_printNat (n : Nat) : natOfDigits (printNat n) = n := by
  induction n using Nat.strong_induction_on with
  | _ n ih =>
    rw [printNat]
    by_cases h : n < 10
    · simp [h, natOfDigits, digitVal_digitChar h]
    · simp only [h, if_false]
      rw [natOfDigits_append_one, ih (n / 10) (Nat.div_lt_self (by omega) (by omega)),
        digitVal_digitChar (Nat.mod_lt _ (by omega))]
      omega

theorem takeDigits_append {ds rest : List Char} (hds : ∀ c ∈ ds, isDigitCh c = true)
    (hrest : numSafe rest) : takeDigits (ds ++ rest) = (ds, rest) := by
  induction ds with
  | nil =>
    cases rest with
    | nil => rfl
    | cons c t =>
      simp only [numSafe] at hrest
      simp [takeDigits, hrest]
  | cons c t ih =>
    have hc : isDigitCh c = true := hds c (by simp)
    have ht := ih (fun d hd => hds d (by simp [hd]))
    simp only [List.cons_append]
    rw [takeDigits]
    simp [hc, ht]

theorem digit_not_minus {c : Char} (h : isDigitCh c = true) : (c = '-') = False := by
  simp only [eq_iff_iff, iff_false]
  intro hEq
  subst hEq
  exact absurd h (by decide)

theorem parseNum_printNat (n : Nat) {rest : List Char} (hrest : numSafe rest) :
    parseNum (printNat n ++ rest) = some ((n : Int), rest) := by
  have htd := takeDigits_append (printNat_digits n) hrest
  have hnod := natOfDigits_printNat n
  obtain ⟨c, t, hct⟩ : ∃ c t, printNat n = c :: t := by
    cases h : printNat n with
    | nil => exact absurd h (printNat_ne_nil n)
    | cons c t => exact ⟨c, t, rfl⟩
  have hc : isDigitCh c = true := printNat_digits n c (by simp [hct])
  rw [hct] at htd hnod
  rw [parseNum, hct]
  have hh : headIs '-' ((c :: t) ++ rest) = false := by
    simp [headIs, digit_not_minus hc]
  rw [hh]
  simp only [Bool.false_eq_true, if_false]
  rw [htd]
  simp [hnod]

theorem parseNum_printInt (i : Int) {rest : List Char} (hrest : numSafe rest) :
    parseNum (printInt i ++ rest) = some (i, rest) := by
  cases i with
  | ofNat n => exact parseNum_printNat n hrest
  | negSucc n =>
    have htd := takeDigits_append (printNat_digits (n + 1)) hrest
    have hnod := natOfDigits_printNat (n + 1)
    obtain ⟨c, t, hct⟩ : ∃ c t, printNat (n + 1) = c :: t := by
      cases h : printNat (n + 1) with
      | nil => exact absurd h (printNat_ne_nil (n + 1))
      | cons c t => exact ⟨c, t, rfl⟩
    rw [hct] at htd hnod
    simp only [printInt, hct, List.cons_append]
    rw [parseNum]
    have hh : headIs '-' ('-' :: (c :: (t ++ rest))) = true := rfl
    rw [hh]
    simp only [if_true, List.tail_cons]
    rw [show c :: (t ++ rest) = (c :: t) ++ rest from rfl, htd]
    simp [hnod, Int.negSucc_eq]

theorem hexVal_hexChar {d : Nat} (h : d < 16) : hexVal (hexChar d) = d := by
  interval_cases d <;> decide

theorem parseStrBody_escChar (c : Char) (k : List Char) :
    parseStrBody (escChar c ++ k) = (parseStrBody k).map fun p => (c :: p.1, p.2) := by
  rw [escChar]
  by_cases h1 : c = '"'
  · subst h1; simp [parseStrBody, escDecode]
  by_cases h2 : c = '\\'
  · subst h2; simp [parseStrBody, escDecode]
  by_cases h3 : c = '\x08'
  · subst h3; simp [parseStrBody, escDecode]
  by_cases h4 : c = '\x09'
  · subst h4; simp [parseStrBody, escDecode]
  by_cases h5 : c = '\x0a'
  · subst h5; simp [parseStrBody, escDecode]
  by_cases h6 : c = '\x0c'
  · subst h6; simp [parseStrBody, escDecode]
  by_cases h7 : c = '\x0d'
  · subst h7; simp [parseStrBody, escDecode]
  by_cases h8 : c.toNat < 32
  · simp only [h1, h2, h3, h4, h5, h6, h7, h8, if_false, if_true]
    simp only [List.cons_append, List.append_nil]
    rw [parseStrBody]
    simp only [show (('\\' : Char) = '"') = False by decide, if_false,
      show (('\\' : Char) = '\\') = True by decide, if_true]
    have hhi : c.toNat / 16 < 16 := by omega
    have hlo : c.toNat % 16 < 16 := by omega
    rw [hexVal_hexChar hhi, hexVal_hexChar hlo]
    have hval : ((hexVal '0' * 16 + hexVal '0') * 16 + c.toNat / 16) * 16 + c.toNat % 16
        = c.toNat := by
      simp only [show hexVal '0' = 0 by decide]
      omega
    rw [hval, Char.ofNat_toNat]
    simp
  · simp only [h1, h2, h3, h4, h5, h6, h7, h8, if_false, List.cons_append, List.nil_append]
    rw [parseStrBody.eq_def]
    simp [h1, h2, h8]

theorem parseStrBody_escBody (s : List Char) (rest : List Char) :
    parseStrBody (escBody s ++ rest) = some (s, rest) := by
  induction s with
  | nil =>
    rw [escBody, List.cons_append, List.nil_append, parseStrBody.eq_def]
    simp
  | cons c t ih =>
    rw [escBody, List.append_assoc, parseStrBody_escChar, ih]
    rfl

/-- Decides whether every member of a field list has an `undefined`
value (such an object prints as the two braces alone). -/
def allUndefF : List (String × JSVal) → Bool
  | [] => true
  | (_, v) :: fs => isUndef v && allUndefF fs

theorem mk_data (s : String) : String.mk s.data = s := rfl

theorem printElemVal_of_some {v : JSVal} {s : List Char} (h : printVal v = some s) :
    printElemVal v = s := by
  rw [printElemVal, h]

theorem printVal_of_not_undef {v : JSVal} (h : isUndef v = false) :
    printVal v = some (printElemVal v) := by
  cases v with
  | undef => simp [isUndef] at h
  | jbool b => cases b <;> simp [printVal, printElemVal]
  | _ => simp [printVal, printElemVal]

theorem digit_facts {c : Char} (h : isDigitCh c = true) :
    ((c = 'n') = False) ∧ ((c = 't') = False) ∧ ((c = 'f') = False) ∧ ((c = '"') = False) ∧
      ((c = '[') = False) ∧ ((c = '\x7b') = False) ∧ ((c = ']') = False) ∧
      ((c = '\x7d') = False) ∧ ((c = ',') = False) := by
  refine ⟨?_, ?_, ?_, ?_, ?_, ?_, ?_, ?_, ?_⟩ <;>
    (simp only [eq_iff_iff, iff_false]; intro hEq; subst hEq; exact absurd h (by decide))

theorem printElemVal_cons (v : JSVal) :
    ∃ c t, printElemVal v = c :: t ∧ ((c = ']') = False) ∧ ((c = '\x7d') = False) := by
  cases v with
  | undef =>
    exact ⟨'n', ['u', 'l', 'l'], by simp [printElemVal, printVal], by decide, by decide⟩
  | jnull =>
    exact ⟨'n', ['u', 'l', 'l'], by simp [printElemVal, printVal], by decide, by decide⟩
  | jnan =>
    exact ⟨'n', ['u', 'l', 'l'], by simp [printElemVal, printVal], by decide, by decide⟩
  | jinf =>
    exact ⟨'n', ['u', 'l', 'l'], by simp [printElemVal, printVal], by decide, by decide⟩
  | jninf =>
    exact ⟨'n', ['u', 'l', 'l'], by simp [printElemVal, printVal], by decide, by decide⟩
  | jbool b =>
    cases b with
    | true =>
      exact ⟨'t', ['r', 'u', 'e'], by simp [printElemVal, printVal], by decide, by decide⟩
    | false =>
      exact ⟨'f', ['a', 'l', 's', 'e'], by simp [printElemVal, printVal], by decide, by decide⟩
  | jstr s =>
    exact ⟨'"', escBody s.data, by simp [printElemVal, printVal, printStr], by decide, by decide⟩
  | jarr xs =>
    exact ⟨'[', printElems xs, by simp [printElemVal, printVal], by decide, by decide⟩
  | jobj fs =>
    exact ⟨'\x7b', printFields fs, by simp [printElemVal, printVal], by decide, by decide⟩
  | jnum i =>
    cases i with
    | ofNat n =>
      obtain ⟨c, t, hct⟩ : ∃ c t, printNat n = c :: t := by
        cases h : printNat n with
        | nil => exact absurd h (printNat_ne_nil n)
        | cons c t => exact ⟨c, t, rfl⟩
      have hc : isDigitCh c = true := printNat_digits n c (by simp [hct])
      have hf := digit_facts hc
      refine ⟨c, t, ?_, hf.2.2.2.2.2.2.1, hf.2.2.2.2.2.2.2.1⟩
      simp [printElemVal, printVal, printInt, hct]
    | negSucc n =>
      exact ⟨'-', printNat (n + 1), by simp [printElemVal, printVal, printInt], by decide,
        by decide⟩

theorem printFields_allUndef {fs : List (String × JSVal)} (h : allUndefF fs = true) :
    printFields fs = ['\x7d'] ∧ printFieldsRest fs = ['\x7d'] ∧ canonFields fs = [] := by
  induction fs with
  | nil => exact ⟨by simp [printFields], by simp [printFieldsRest], by simp [canonFields]⟩
  | cons f fs ih =>
    obtain ⟨k, v⟩ := f
    rw [allUndefF, Bool.and_eq_true] at h
    have ih' := ih h.2
    rw [printFields, printFieldsRest, canonFields]
    simp [h.1, ih'.1, ih'.2.1, ih'.2.2]

theorem printFields_not_allUndef {fs : List (String × JSVal)} (h : allUndefF fs = false) :
    printFieldsRest fs = ',' :: printFields fs ∧ ∃ t, printFields fs = '"' :: t := by
  induction fs with
  | nil => simp [allUndefF] at h
  | cons f fs ih =>
    obtain ⟨k, v⟩ := f
    rw [allUndefF, Bool.and_eq_false_iff] at h
    by_cases hv : isUndef v = true
    · have hfs : allUndefF fs = false := by
        rcases h with h | h
        · rw [hv] at h; cases h
        · exact h
      have ih' := ih hfs
      rw [printFields, printFieldsRest]
      simp only [hv, if_true]
      exact ih'
    · rw [Bool.not_eq_true] at hv
      constructor
      · rw [printFields, printFieldsRest]
        simp [hv]
      · rw [printFields]
        simp only [hv, Bool.false_eq_true, if_false]
        exact ⟨_, rfl⟩

theorem printElemsRest_head (xs : List JSVal) :
    ∃ c t, printElemsRest xs = c :: t ∧ isDigitCh c = false := by
  cases xs with
  | nil => exact ⟨']', [], by simp [printElemsRest], by decide⟩
  | cons x xs =>
    exact ⟨',', printElemVal x ++ printElemsRest xs, by simp [printElemsRest], by decide⟩

theorem printFieldsRest_head (fs : List (String × JSVal)) :
    ∃ c t, printFieldsRest fs = c :: t ∧ isDigitCh c = false := by
  by_cases h : allUndefF fs = true
  · exact ⟨'\x7d', [], (printFields_allUndef h).2.1, by decide⟩
  · rw [Bool.not_eq_true] at h
    exact ⟨',', _, (printFields_not_allUndef h).1, by decide⟩

theorem numSafe_cons {c : Char} (t : List Char) (h : isDigitCh c = false) :
    numSafe (c :: t) := by
  simp [numSafe, h]

theorem eq_undef_of_isUndef {v : JSVal} (h : isUndef v = true) : v = .undef := by
  cases v <;> simp [isUndef] at h ⊢

theorem numStart_facts {c : Char} (h : isDigitCh c = true ∨ c = '-') :
    ((c = 'n') = False) ∧ ((c = 't') = False) ∧ ((c = 'f') = False) ∧ ((c = '"') = False) ∧
      ((c = '[') = False) ∧ ((c = '\x7b') = False) := by
  rcases h with h | h
  · have hf := digit_facts h
    exact ⟨hf.1, hf.2.1, hf.2.2.1, hf.2.2.2.1, hf.2.2.2.2.1, hf.2.2.2.2.2.1⟩
  · subst h
    exact ⟨by decide, by decide, by decide, by decide, by decide, by decide⟩

theorem printInt_cons (i : Int) :
    ∃ c t, printInt i = c :: t ∧ (isDigitCh c = true ∨ c = '-') := by
  cases i with
  | ofNat n =>
    obtain ⟨c, t, hct⟩ : ∃ c t, printNat n = c :: t := by
      cases h : printNat n with
      | nil => exact absurd h (printNat_ne_nil n)
      | cons c t => exact ⟨c, t, rfl⟩
    exact ⟨c, t, hct, Or.inl (printNat_digits n c (by simp [hct]))⟩
  | negSucc n => exact ⟨'-', printNat (n + 1), rfl, Or.inr rfl⟩

theorem parseVal_null (f : Nat) (k : List Char) :
    parseVal (f + 1) ('n' :: 'u' :: 'l' :: 'l' :: k) = some (.jnull, k) := by
  simp [parseVal, stripPfx]

theorem parseVal_true (f : Nat) (k : List Char) :
    parseVal (f + 1) ('t' :: 'r' :: 'u' :: 'e' :: k) = some (.jbool true, k) := by
  simp [parseVal, stripPfx]

theorem parseVal_false (f : Nat) (k : List Char) :
    parseVal (f + 1) ('f' :: 'a' :: 'l' :: 's' :: 'e' :: k) = some (.jbool false, k) := by
  simp [parseVal, stripPfx]
mutual

theorem parseVal_print : ∀ (v : JSVal) (s rest : List Char) (fuel : Nat),
    printVal v = some s → s.length < fuel → numSafe rest →
    parseVal fuel (s ++ rest) = some (canon v, rest)
  | .undef, s, rest, fuel, hp, hf, hr => by simp [printVal] at hp
  | .jnull, s, rest, fuel, hp, hf, hr => by
    obtain ⟨f, rfl⟩ : ∃ f, fuel = f + 1 := ⟨fuel - 1, by omega⟩
    simp [printVal] at hp
    subst hp
    simpa [canon] using parseVal_null f rest
  | .jnan, s, rest, fuel, hp, hf, hr => by
    obtain ⟨f, rfl⟩ : ∃ f, fuel = f + 1 := ⟨fuel - 1, by omega⟩
    simp [printVal] at hp
    subst hp
    simpa [canon] using parseVal_null f rest
  | .jinf, s, rest, fuel, hp, hf, hr => by
    obtain ⟨f, rfl⟩ : ∃ f, fuel = f + 1 := ⟨fuel - 1, by omega⟩
    simp [printVal] at hp
    subst hp
    simpa [canon] using parseVal_null f rest
  | .jninf, s, rest, fuel, hp, hf, hr => by
    obtain ⟨f, rfl⟩ : ∃ f, fuel = f + 1 := ⟨fuel - 1, by omega⟩
    simp [printVal] at hp
    subst hp
    simpa [canon] using parseVal_null f rest
  | .jbool true, s, rest, fuel, hp, hf, hr => by
    obtain ⟨f, rfl⟩ : ∃ f, fuel = f + 1 := ⟨fuel - 1, by omega⟩
    simp [printVal] at hp
    subst hp
    simpa [canon] using parseVal_true f rest
  | .jbool false, s, rest, fuel, hp, hf, hr => by
    obtain ⟨f, rfl⟩ : ∃ f, fuel = f + 1 := ⟨fuel - 1, by omega⟩
    simp [printVal] at hp
    subst hp
    simpa [canon] using parseVal_false f rest
  | .jnum i, s, rest, fuel, hp, hf, hr => by
    obtain ⟨f, rfl⟩ : ∃ f, fuel = f + 1 := ⟨fuel - 1, by omega⟩
    simp only [printVal, Option.some_inj] at hp
    subst hp
    obtain ⟨c, t, hct, hstart⟩ := printInt_cons i
    obtain ⟨hn, ht, hfa, hq, hb, hbc⟩ := numStart_facts hstart
    rw [hct, List.cons_append]
    rw [parseVal]
    simp only [hn, ht, hfa, hq, hb, hbc, if_false]
    rw [show c :: (t ++ rest) = (c :: t) ++ rest from rfl, ← hct,
      parseNum_printInt i hr]
    simp [canon]
  | .jstr str, s, rest, fuel, hp, hf, hr => by
    obtain ⟨f, rfl⟩ : ∃ f, fuel = f + 1 := ⟨fuel - 1, by omega⟩
    simp only [printVal, printStr, Option.some_inj] at hp
    subst hp
    rw [List.cons_append, parseVal]
    simp only [show (('"' : Char) = 'n') = False by decide,
      show (('"' : Char) = 't') = False by decide, show (('"' : Char) = 'f') = False by decide,
      show (('"' : Char) = '"') = True by decide, if_false, if_true]
    rw [parseStrBody_escBody]
    simp [canon, mk_data]
  | .jarr [], s, rest, fuel, hp, hf, hr => by
    obtain ⟨f, rfl⟩ : ∃ f, fuel = f + 1 := ⟨fuel - 1, by omega⟩
    simp only [printVal, Option.some_inj] at hp
    subst hp
    rw [show printElems ([] : List JSVal) = [']'] by rw [printElems]]
    rw [List.cons_append, List.cons_append, parseVal]
    simp [canon, canonElems, headIs]
  | .jarr (x :: xs'), s, rest, fuel, hp, hf, hr => by
    obtain ⟨f, rfl⟩ : ∃ f, fuel = f + 1 := ⟨fuel - 1, by omega⟩
    simp only [printVal, Option.some_inj] at hp
    subst hp
    have hpe : printElems (x :: xs') = printElemVal x ++ printElemsRest xs' := by
      rw [printElems]
    rw [hpe] at hf ⊢
    obtain ⟨c, t, hct, hc1, hc2⟩ := printElemVal_cons x
    rw [List.cons_append, parseVal]
    simp only [show (('[' : Char) = 'n') = False by decide,
      show (('[' : Char) = 't') = False by decide, show (('[' : Char) = 'f') = False by decide,
      show (('[' : Char) = '"') = False by decide, show (('[' : Char) = '[') = True by decide,
      if_false, if_true]
    have hhd : headIs ']' (printElemVal x ++ printElemsRest xs' ++ rest) = false := by
      rw [hct]
      simp [headIs, hc1]
    rw [hhd]
    simp only [Bool.false_eq_true, if_false]
    have hlen : (printElemVal x ++ printElemsRest xs').length < f := by
      simp only [List.length_cons] at hf
      omega
    rw [List.append_assoc, parseItems_print x xs' rest f hlen]
    simp [canon]
  | .jobj fs, s, rest, fuel, hp, hf, hr => by
    obtain ⟨f, rfl⟩ : ∃ f, fuel = f + 1 := ⟨fuel - 1, by omega⟩
    simp only [printVal, Option.some_inj] at hp
    subst hp
    by_cases hu : allUndefF fs = true
    · obtain ⟨hpf, -, hcf⟩ := printFields_allUndef hu
      rw [hpf, List.cons_append, List.cons_append, parseVal]
      simp [canon, hcf, headIs]
    · rw [Bool.not_eq_true] at hu
      obtain ⟨-, t0, hpf⟩ := printFields_not_allUndef hu
      rw [List.cons_append, parseVal]
      simp only [show (('\x7b' : Char) = 'n') = False by decide,
        show (('\x7b' : Char) = 't') = False by decide,
        show (('\x7b' : Char) = 'f') = False by decide,
        show (('\x7b' : Char) = '"') = False by decide,
        show (('\x7b' : Char) = '[') = False by decide,
        show (('\x7b' : Char) = '\x7b') = True by decide, if_false, if_true]
      have hhd : headIs '\x7d' (printFields fs ++ rest) = false := by
        rw [hpf]
        simp [headIs]
      rw [hhd]
      simp only [Bool.false_eq_true, if_false]
      rw [parseMembers_print fs rest f hu (by simp only [List.length_cons] at hf; omega)]
      simp [canon]
termination_by v s rest fuel hp hf hr => sizeOf v

theorem parseItems_print : ∀ (x : JSVal) (xs : List JSVal) (rest : List Char) (fuel : Nat),
    (printElemVal x ++ printElemsRest xs).length < fuel →
    parseItems fuel (printElemVal x ++ (printElemsRest xs ++ rest))
      = some (canonElems (x :: xs), rest)
  | x, [], rest, fuel, hf => by
    obtain ⟨f, rfl⟩ : ∃ f, fuel = f + 1 := ⟨fuel - 1, by omega⟩
    have hpv : parseVal (f + 1) (printElemVal x ++ (printElemsRest ([] : List JSVal) ++ rest))
        = some (if isUndef x then .jnull else canon x,
            printElemsRest ([] : List JSVal) ++ rest) := by
      by_cases hux : isUndef x = true
      · have hx := eq_undef_of_isUndef hux
        subst hx
        rw [show printElemVal .undef = ['n', 'u', 'l', 'l'] by
          simp [printElemVal, printVal]]
        simpa [hux] using parseVal_null f (printElemsRest ([] : List JSVal) ++ rest)
      · rw [Bool.not_eq_true] at hux
        have hnum : numSafe (printElemsRest ([] : List JSVal) ++ rest) := by
          rw [show printElemsRest ([] : List JSVal) = [']'] by rw [printElemsRest]]
          exact numSafe_cons _ (by decide)
        rw [parseVal_print x (printElemVal x) (printElemsRest ([] : List JSVal) ++ rest)
          (f + 1) (printVal_of_not_undef hux)
          (by simp only [List.length_append] at hf
              have : 1 ≤ (printElemsRest ([] : List JSVal)).length := by
                rw [show printElemsRest ([] : List JSVal) = [']'] by rw [printElemsRest]]
                simp
              omega)
          hnum]
        simp [hux]
    rw [parseItems, hpv]
    rw [show printElemsRest ([] : List JSVal) = [']'] by rw [printElemsRest]]
    simp only [List.cons_append, List.nil_append]
    rw [show headIs ',' (']' :: rest) = false from rfl]
    simp only [Bool.false_eq_true, if_false]
    rw [show headIs ']' (']' :: rest) = true from rfl]
    simp only [if_true, List.tail_cons]
    rw [canonElems, canonElems]
  | x, y :: ys, rest, fuel, hf => by
    obtain ⟨f, rfl⟩ : ∃ f, fuel = f + 1 := ⟨fuel - 1, by omega⟩
    have hprc : printElemsRest (y :: ys) = ',' :: (printElemVal y ++ printElemsRest ys) := by
      rw [printElemsRest]
    have hpv : parseVal (f + 1) (printElemVal x ++ (printElemsRest (y :: ys) ++ rest))
        = some (if isUndef x then .jnull else canon x, printElemsRest (y :: ys) ++ rest) := by
      by_cases hux : isUndef x = true
      · have hx := eq_undef_of_isUndef hux
        subst hx
        rw [show printElemVal .undef = ['n', 'u', 'l', 'l'] by
          simp [printElemVal, printVal]]
        simpa [hux] using parseVal_null f (printElemsRest (y :: ys) ++ rest)
      · rw [Bool.not_eq_true] at hux
        have hnum : numSafe (printElemsRest (y :: ys) ++ rest) := by
          rw [hprc]
          exact numSafe_cons _ (by decide)
        rw [parseVal_print x (printElemVal x) (printElemsRest (y :: ys) ++ rest) (f + 1)
          (printVal_of_not_undef hux)
          (by simp only [List.length_append] at hf
              have : 1 ≤ (printElemsRest (y :: ys)).length := by rw [hprc]; simp
              omega)
          hnum]
        simp [hux]
    rw [parseItems, hpv]
    rw [hprc]
    simp only [List.cons_append]
    rw [show headIs ',' (',' :: ((printElemVal y ++ printElemsRest ys) ++ rest)) = true
      from rfl]
    simp only [if_true, List.tail_cons]
    have hfy : (printElemVal y ++ printElemsRest ys).length < f := by
      rw [hprc] at hf
      simp only [List.length_append, List.length_cons] at hf ⊢
      omega
    rw [List.append_assoc, parseItems_print y ys rest f hfy]
    rw [show canonElems (x :: y :: ys)
      = (if isUndef x then .jnull else canon x) :: canonElems (y :: ys) by rw [canonElems]]
    rfl
termination_by x xs rest fuel hf => sizeOf (x :: xs)

theorem parseMembers_print : ∀ (fs : List (String × JSVal)) (rest : List Char) (fuel : Nat),
    allUndefF fs = false → (printFields fs).length < fuel →
    parseMembers fuel (printFields fs ++ rest) = some (canonFields fs, rest)
  | [], rest, fuel, hu, hf => by simp [allUndefF] at hu
  | (k, v) :: fs', rest, fuel, hu, hf => by
    obtain ⟨f, rfl⟩ : ∃ f, fuel = f + 1 := ⟨fuel - 1, by omega⟩
    by_cases hv : isUndef v = true
    · have hu' : allUndefF fs' = false := by
        rw [allUndefF, hv, Bool.true_and] at hu
        exact hu
      have hpf : printFields ((k, v) :: fs') = printFields fs' := by
        rw [printFields]
        simp [hv]
      have hcf : canonFields ((k, v) :: fs') = canonFields fs' := by
        rw [canonFields]
        simp [hv]
      rw [hpf] at hf ⊢
      rw [hcf]
      exact parseMembers_print fs' rest (f + 1) hu' hf
    · rw [Bool.not_eq_true] at hv
      have hpf : printFields ((k, v) :: fs')
          = (printStr k ++ ':' :: printElemVal v) ++ printFieldsRest fs' := by
        rw [printFields]
        simp [hv]
      have hcf : canonFields ((k, v) :: fs') = (k, canon v) :: canonFields fs' := by
        rw [canonFields]
        simp [hv]
      rw [hpf] at hf ⊢
      rw [hcf]
      obtain ⟨cr, tr, hpr, hcr⟩ := printFieldsRest_head fs'
      have htext : ((printStr k ++ ':' :: printElemVal v) ++ printFieldsRest fs') ++ rest
          = '"' :: (escBody k.data
            ++ (':' :: (printElemVal v ++ (printFieldsRest fs' ++ rest)))) := by
        simp [printStr]
      rw [htext, parseMembers]
      rw [show headIs '"' ('"' :: (escBody k.data
        ++ (':' :: (printElemVal v ++ (printFieldsRest fs' ++ rest))))) = true from rfl]
      simp only [if_true, List.tail_cons]
      rw [parseStrBody_escBody k.data
        (':' :: (printElemVal v ++ (printFieldsRest fs' ++ rest)))]
      simp only []
      rw [show headIs ':' (':' :: (printElemVal v ++ (printFieldsRest fs' ++ rest))) = true
        from rfl]
      simp only [if_true, List.tail_cons]
      have hnum : numSafe (printFieldsRest fs' ++ rest) := by
        rw [hpr]
        exact numSafe_cons _ hcr
      have hlenpr : 1 ≤ (printFieldsRest fs').length := by rw [hpr]; simp
      rw [parseVal_print v (printElemVal v) (printFieldsRest fs' ++ rest) (f + 1)
        (printVal_of_not_undef hv)
        (by simp only [List.length_append, List.length_cons, printStr] at hf; omega) hnum]
      simp only []
      by_cases hu2 : allUndefF fs' = true
      · obtain ⟨-, hprz, hcf2⟩ := printFields_allUndef hu2
        rw [hprz]
        simp only [List.cons_append, List.nil_append]
        rw [show headIs ',' ('\x7d' :: rest) = false from rfl]
        simp only [Bool.false_eq_true, if_false]
        rw [show headIs '\x7d' ('\x7d' :: rest) = true from rfl]
        simp [hcf2, mk_data]
      · rw [Bool.not_eq_true] at hu2
        obtain ⟨hprc, -⟩ := printFields_not_allUndef hu2
        rw [hprc]
        simp only [List.cons_append]
        rw [show headIs ',' (',' :: (printFields fs' ++ rest)) = true from rfl]
        simp only [if_true, List.tail_cons]
        have hff : (printFields fs').length < f := by
          rw [hprc] at hlenpr hf
          simp only [List.length_append, List.length_cons, printStr] at hf hlenpr ⊢
          omega
        rw [parseMembers_print fs' rest f hu2 hff]
        rw [mk_data]
        rfl
termination_by fs rest fuel hu hf => sizeOf fs

end

theorem data_mk (cs : List Char) : (String.mk cs).data = cs := rfl

/-- Reads a complete JSON text: the whole input must be consumed.
Fuel `length + 1` always suffices on encoder output, by the round-trip
lemmas. -/
def jsonParse (s : String) : Option JSVal :=
  match parseVal (s.data.length + 1) s.data with
  | some (v, []) => some v
  | _ => none

/-- Reading back a printed value yields its canonical form.  This is
the `parse ∘ stringify` law of the platform codec on the integral
fragment. -/
theorem jsonParse_print {v : JSVal} {s : List Char} (hp : printVal v = some s) :
    jsonParse (String.mk s) = some (canon v) := by
  rw [jsonParse, data_mk]
  have h := parseVal_print v s [] (s.length + 1) hp (by omega) trivial
  rw [List.append_nil] at h
  rw [h]

/-! ### Error values

The shapes of `src/errors/errors.ts` and its name constants: an error
is a named carrier with a message; `isOperationTimeoutError` recognises
its kind by name. -/

/-- Error value: the `name`/`message` pair every error of the library
carries (`customError` in the source builds exactly this). -/
structure JsErr where
  name : String
  message : String
deriving DecidableEq, Repr

/-- Error-kind names, from `errors/constants`. -/
def ERRORS_ParseError : String := "ParseError"

def ERRORS_RequestMaximumTimeoutExceededError : String := "RequestMaximumTimeoutExceededError"

def ERRORS_WaitForResultError : String := "WaitForResultError"

def ERRORS_OperationTimeoutError : String := "OperationTimeoutError"

def ERRORS_ExecutorReturnsUndefinedError : String := "ExecutorReturnsUndefinedError"

/-- Builds an error value, as `custom-error` does. -/
def customError (name message : String) : JsErr := ⟨name, message⟩

/-- ParseError wrapping the underlying reader's message. -/
def parseError (message : String) : JsErr := customError ERRORS_ParseError message

/-- Error raised when `WaitForResult` exceeds its overall budget; the
message carries the configured maximum timeout. -/
def requestMaximumTimeoutExceededError (maxTimeout : Int) : JsErr :=
  customError ERRORS_RequestMaximumTimeoutExceededError
    ("Exceeded maximum timeout of " ++ toString maxTimeout)

/-- Error raised when the lock was released but no record was found. -/
def waitForResultError : JsErr :=
  customError ERRORS_WaitForResultError "Error while waiting for result in cache"

/-- Error raised by the timeout wrapper. -/
def operationTimeoutError (timeout : Int) : JsErr :=
  customError ERRORS_OperationTimeoutError ("Operation timeout after " ++ toString timeout)

/-- Recognises an operation-timeout error by its name, as
`isOperationTimeoutError` does. -/
def isOperationTimeoutError (e : JsErr) : Bool :=
  e.name == ERRORS_OperationTimeoutError

/-- TypeError thrown by the runtime itself (for example by
`Object.prototype.hasOwnProperty.call(null, ...)`). -/
def typeError (message : String) : JsErr := customError "TypeError" message

/-- Model of `deserialize.ts`: `JSON.parse` wrapped so that a parse
failure surfaces as a `ParseError`. -/
def deserialize (value : String) : Except JsErr JSVal :=
  match jsonParse value with
  | some v => .ok v
  | none => .error (parseError ("Unexpected token in JSON: " ++ value))

/-- Modelled from the spec §4.2 (the repository's `serialize.ts` is
absent from the sources; only its tests remain): `encode(v)` is the
canonical JSON text, absent for `undefined`, with Infinity and NaN
encoding to the neutral null form.  The current `BaseStorage` calls the
platform `JSON.stringify` directly, which this same function models. -/
def serialize (v : JSVal) : Option String :=
  (printVal v).map String.mk

/-! ### Connection status and adapter-facing state -/

/-- Connection states an adapter reports, from `ConnectionStatus.ts`. -/
inductive ConnectionStatus where
  | CONNECTING : ConnectionStatus
  | CONNECTED : ConnectionStatus
  | DISCONNECTED : ConnectionStatus
deriving DecidableEq, Repr

/-! ### Records and tags (`storage/Record.ts`, `storage/Storage.ts`) -/

/-- Cache tag: a name paired with a version in unixtime milliseconds. -/
structure Tag where
  name : String
  version : Int
deriving DecidableEq, Repr

/-- Record constructor options relevant to the envelope
(`ExpireOptions` and `WriteOptions` of `storage/Storage.ts`): `tags`
is either absent, a list, or a thunk producing a list (already
evaluated in the model); `getTags` computes tags from the value. -/
inductive TagsOpt where
  | noTags : TagsOpt
  | static (tags : List String) : TagsOpt
  | thunk (produced : List String) : TagsOpt

/-- Write options bag. -/
structure WriteOptions where
  expiresIn : Option Int
  permanent : Option Bool
  tags : TagsOpt
  getTags : Option (JSVal → List String)

/-- Write options with every field absent. -/
def WriteOptions.empty : WriteOptions :=
  { expiresIn := none, permanent := none, tags := .noTags, getTags := none }

/-- The cached-value envelope, mirroring the fields the `Record` class
assigns in its constructor (in assignment order: key, value, tags,
permanent, expiresIn, createdAt). -/
structure Record where
  key : String
  value : JSVal
  tags : List Tag
  permanent : Bool
  expiresIn : Int
  createdAt : Int

/-- The `Record` constructor: `expiresIn` defaults to 0, `permanent`
is computed as `expiresIn === 0` (the `permanent` option of
`ExpireOptions` is not consulted), `createdAt` is the current time, and
an `undefined` value clears the tags. -/
def Record.make (key : String) (value : JSVal) (tags : List Tag) (options : WriteOptions)
    (now : Int) : Record :=
  let expiresIn := options.expiresIn.getD 0
  { key := key
    value := value
    tags := if isUndef value then [] else tags
    permanent := expiresIn == 0
    expiresIn := expiresIn
    createdAt := now }

/-- Typewise shape test of `Record.isRecord` in the current sources:
`typeof value === "object"` holds for null, arrays and plain objects. -/
def typeofIsObject : JSVal → Bool
  | .jnull => true
  | .jobj _ => true
  | .jarr _ => true
  | _ => false

/-- Model of `Object.prototype.hasOwnProperty.call(value, "key")`:
raises a TypeError on null (`ToObject(null)` throws), answers whether a
plain object carries an own `key` member, and `false` on arrays. -/
def hasOwnPropertyKey : JSVal → Except JsErr Bool
  | .jnull => .error (typeError "Cannot convert undefined or null to object")
  | .jobj fs => .ok (fs.any fun f => f.1 == "key")
  | _ => .ok false

/-- Model of `Record.isRecord` (current `Record` class):
`typeof value === "object" && Object.prototype.hasOwnProperty.call(value, "key")`. -/
def isRecord (v : JSVal) : Except JsErr Bool :=
  if typeofIsObject v then hasOwnPropertyKey v else .ok false

/-! ### BaseStorage (the current draft, with tag versioning) -/

/-- The tag-versions key alias of `BaseStorage`. -/
def TAGS_VERSIONS_ALIAS : String := "cache-tags-versions"

/-- Effective storage key: prefixed with `"{prefix}-"` when a prefix is
configured.  The optional MD5 hashing (`hashKeys`) is a platform
`crypto` primitive and is modelled for the un-hashed configuration. -/
def createKey (keyPrefix key : String) : String :=
  if keyPrefix ≠ "" then keyPrefix ++ "-" ++ key else key

/-- Effective key of a tag's version entry. -/
def createTagKey (keyPrefix tagName : String) : String :=
  createKey keyPrefix (TAGS_VERSIONS_ALIAS ++ ":" ++ tagName)

/-- A freshly touched tag: version is the current unixtime. -/
def createTag (tagName : String) (now : Int) : Tag :=
  { name := tagName, version := now }

/-- Model of `[...new Set(arr)]`: duplicates removed, first occurrence
kept, order preserved. -/
def uniq (xs : List String) : List String :=
  xs.foldl (fun acc x => if acc.contains x then acc else acc ++ [x]) []

/-- Tag names `BaseStorage.set` attaches to a record: the static or
thunk-produced `tags` option concatenated with the `getTags`-computed
dynamic tags, duplicate-free.  (`getTags` is typed to return a string
array, so the `TypeError` branch for non-array results is
unreachable in the typed model.) -/
def setTagNames (options : WriteOptions) (value : JSVal) : List String :=
  let tags := match options.tags with
    | .noTags => []
    | .static l => l
    | .thunk l => l
  let dynamicTags := match options.getTags with
    | none => []
    | some f => f value
  uniq (tags ++ dynamicTags)

/-- JSON object representing one tag, as serialization sees it (fields
in the literal's order: name, version). -/
def tagJS (t : Tag) : JSVal :=
  .jobj [("name", .jstr t.name), ("version", .jnum t.version)]

/-- The envelope `BaseStorage.set` serializes:
`{ ...record, value: JSON.stringify(record.value) }` — the record's own
enumerable fields in constructor-assignment order, with `value`
replaced by its own encoding (absent when the inner encoding is
absent). -/
def Record.envelope (r : Record) : JSVal :=
  .jobj [("key", .jstr r.key),
    ("value", match printVal r.value with
      | none => .undef
      | some t => .jstr (String.mk t)),
    ("tags", .jarr (r.tags.map tagJS)),
    ("permanent", .jbool r.permanent),
    ("expiresIn", .jnum r.expiresIn),
    ("createdAt", .jnum r.createdAt)]

/-- Model of `BaseStorage.set`: builds the record from the merged tag
names (each at version `now`) and the write options, and produces the
text written to the adapter (the envelope with the double-encoded
value).  The adapter receives it under the effective key with
`record.expiresIn` as TTL; the returned pair is (record, stored
text). -/
def baseStorageSet (key : String) (value : JSVal) (options : WriteOptions) (now : Int) :
    Record × String :=
  let record := Record.make key value ((setTagNames options value).map (createTag · now))
    options now
  (record, String.mk ((printVal record.envelope).getD []))

/-- Model of `BaseStorage.get`: absent adapter value is a miss;
otherwise the text is deserialized (a parse failure propagates), and a
decoded envelope that `Record.isRecord` rejects yields a miss — while
`isRecord` itself raises a TypeError on the decoded `null` envelope. -/
def baseStorageGet (adapterValue : Option String) : Except JsErr (Option JSVal) :=
  match adapterValue with
  | none => .ok none
  | some text =>
    match deserialize text with
    | .error e => .error e
    | .ok record =>
      match isRecord record with
      | .error e => .error e
      | .ok b => if b then .ok (some record) else .ok none

/-- Model of `Number(x) || 0` applied to an optional fetched tag
version text: absent entries and non-numeric texts give 0. -/
def jsNumberOrZero (s : Option String) : Int :=
  match s with
  | none => 0
  | some str =>
    match parseNum str.data with
    | some (i, []) => i
    | _ => 0

/-- Model of `BaseStorage.getTags`: empty input means no backend call
and an empty result; otherwise one `mget` against the tags adapter
(whose outcome is the `backend` argument), missing entries getting
version 0. -/
def getTags (keyPrefix : String) (backend : Except JsErr (String → Option String))
    (tagNames : List String) : Except JsErr (List Tag) :=
  if tagNames.length = 0 then .ok []
  else
    match backend with
    | .error e => .error e
    | .ok lookup =>
      .ok (tagNames.map fun n => ⟨n, jsNumberOrZero (lookup (createTagKey keyPrefix n))⟩)

/-- Model of lodash `differenceWith`: the elements of `xs` for which no
element of `ys` satisfies the comparator. -/
def differenceWith (cmp : α → β → Bool) (xs : List α) (ys : List β) : List α :=
  xs.filter fun x => !(ys.any (cmp x))

/-- The comparator `BaseStorage.isOutdated` uses: a recorded tag is
covered by an actual tag of the same name whose version it still
reaches. -/
def isTagOutdatedComparator (recordTag actualTag : Tag) : Bool :=
  recordTag.name == actualTag.name && recordTag.version ≥ actualTag.version

/-- Model of `BaseStorage.isOutdated`: no tags means fresh; a failed
version fetch means outdated; otherwise outdated iff the
`differenceWith` of recorded against actual tags is non-empty. -/
def isOutdated (keyPrefix : String) (backend : Except JsErr (String → Option String))
    (record : Record) : Bool :=
  if record.tags.length ≠ 0 then
    match getTags keyPrefix backend (record.tags.map (·.name)) with
    | .error _ => true
    | .ok actualTags =>
      (differenceWith isTagOutdatedComparator record.tags actualTags).length ≠ 0
  else false

/-! ### Property access and coercions on decoded envelopes

`BaseStorage.get` hands managers the decoded envelope object; the
managers read its fields through ordinary property access, which these
helpers model (duplicate members resolve to the last occurrence, as
objects built by the platform reader do). -/

/-- Member lookup on an object's field list: last occurrence wins,
absent members are `undefined`. -/
def jsGet (fields : List (String × JSVal)) (name : String) : JSVal :=
  match fields.reverse.find? (fun f => f.1 == name) with
  | some f => f.2
  | none => (.undef)

/-- Property access `env.name` on a decoded value (managers only reach
it with the object the `isRecord` guard admitted). -/
def envField (env : JSVal) (name : String) : JSVal :=
  match env with
  | .jobj fs => jsGet fs name
  | _ => (.undef)

/-- Truthiness of a value, as a condition position coerces it. -/
def jsTruthy : JSVal → Bool
  | .undef => false
  | .jnull => false
  | .jbool b => b
  | .jnum n => n != 0
  | .jnan => false
  | .jinf => true
  | .jninf => true
  | .jstr s => s ≠ ""
  | .jarr _ => true
  | .jobj _ => true

/-- Numeric addition of two envelope fields, defined on the shapes the
library writes (two numbers); other shapes give the NaN outcome, which
`Number(...) || 0` collapses to 0. -/
def jsAddNums : JSVal → JSVal → Option Int
  | .jnum a, .jnum b => some (a + b)
  | _, _ => none

/-- The manager expression `Number(record.createdAt + record.expiresIn) || 0`. -/
def recordExpireDate (env : JSVal) : Int :=
  (jsAddNums (envField env "createdAt") (envField env "expiresIn")).getD 0

/-- The `record.value` the managers decode: typed `string` in the
source (`Record<string>`), so the model decodes the string field; the
library's own envelopes never carry another shape there. -/
def deserializeField : JSVal → Except JsErr JSVal
  | .jstr s => deserialize s
  | v => .error (parseError ("record value is not a string: " ++ toString (isUndef v)))

/-- Tags an envelope records, extracted fieldwise (the library writes
`{name, version}` objects; other shapes fall back to the zero tag,
which no theorem below reaches). -/
def envTags (env : JSVal) : List Tag :=
  match envField env "tags" with
  | .jarr l =>
    l.map fun t =>
      { name := match envField t "name" with
          | .jstr s => s
          | _ => ""
        version := match envField t "version" with
          | .jnum n => n
          | _ => 0 }
  | _ => []

/-- The guard `record.tags && record.tags.length` of the Read-Through
validity check: a truthy tags member with a non-zero length. -/
def envTagsNonempty (env : JSVal) : Bool :=
  jsTruthy (envField env "tags") &&
    (match envField env "tags" with
      | .jarr l => l.length != 0
      | _ => false)

/-! ### ReadThroughManager (`managers/ReadThroughManager.ts`) -/

/-- Validity check of `ReadThroughManager.get`: the record must be
present, not time-expired (`!permanent && now > createdAt + expiresIn`
invalidates), its tags (when any are recorded) must all still be
current — a failing tag fetch counts as invalid — and its value must
not be `undefined`. -/
def readThroughIsRecordValid (record : Option JSVal) (now : Int) (keyPrefix : String)
    (tagBackend : Except JsErr (String → Option String)) : Bool :=
  match record with
  | none => false
  | some env =>
    let isExpired := !jsTruthy (envField env "permanent") && decide (now > recordExpireDate env)
    if isExpired then false
    else if envTagsNonempty env then
      match getTags keyPrefix tagBackend ((envTags env).map (·.name)) with
      | .error _ => false
      | .ok actualTags =>
        if (differenceWith isTagOutdatedComparator (envTags env) actualTags).length ≠ 0 then
          false
        else !(isUndef (envField env "value"))
    else !(isUndef (envField env "value"))

/-- Outcome of a manager-level `get`. -/
inductive ManagerGetOutcome where
  | fallback (e : JsErr) : ManagerGetOutcome
  | hit (result : Except JsErr JSVal) : ManagerGetOutcome
  | miss : ManagerGetOutcome

/-- Model of `ReadThroughManager.get` up to the single-flight branch:
a storage read failure falls back to the executor, a valid record is a
hit whose result is the twice-decoded value, anything else is a miss
(which proceeds to `updateCacheAndGetResult`). -/
def readThroughGet (adapterValue : Option String) (now : Int) (keyPrefix : String)
    (tagBackend : Except JsErr (String → Option String)) : ManagerGetOutcome :=
  match baseStorageGet adapterValue with
  | .error e => .fallback e
  | .ok record =>
    if readThroughIsRecordValid record now keyPrefix tagBackend then
      match record with
      | some env => .hit (deserializeField (envField env "value"))
      | none => .miss
    else .miss

/-! ### WriteThroughManager (`managers/WriteThroughManager.ts`) -/

/-- Model of `WriteThroughManager.set`: delegates to the storage with
`permanent: true` spread over the caller's options. -/
def writeThroughSet (key : String) (value : JSVal) (options : WriteOptions) (now : Int) :
    Record × String :=
  baseStorageSet key value { options with permanent := some true } now

/-- Validity check of `WriteThroughManager.get`: only record presence
and a non-`undefined` value matter — time and tags are ignored. -/
def writeThroughIsRecordValid (record : Option JSVal) : Bool :=
  match record with
  | none => false
  | some env => !(isUndef (envField env "value"))

/-! ### RefreshAheadManager construction (`managers/RefreshAheadManager.ts`) -/

/-- Default refresh-ahead factor. -/
def DEFAULT_REFRESH_AHEAD_FACTOR : ℚ := 0.8

/-- The `a || b` defaulting the constructor applies to the factor: an
absent or zero (falsy) left operand yields the default.  Factors are
modelled as rationals, which are exactly the finite values (`NaN`,
which is also falsy, behaves like an absent option and the infinite
values escape the range checks entirely, so they are outside this
model's claims). -/
def jsOrDefault (x : Option ℚ) (d : ℚ) : ℚ :=
  match x with
  | none => d
  | some v => if v = 0 then d else v

/-- Model of the `RefreshAheadManager` constructor's factor logic:
defaulting via `||`, then (the value being finite) rejection of factors
at most 0 or at least 1. -/
def refreshAheadFactorInit (factorOption : Option ℚ) : Except String ℚ :=
  let f := jsOrDefault factorOption DEFAULT_REFRESH_AHEAD_FACTOR
  if f ≤ 0 then .error "Refresh-Ahead factor should be more than 0"
  else if f ≥ 1 then .error "Refresh-Ahead factor should be under 1"
  else .ok f

/-! ### The offline command queue (`BaseStorage.cachedCommand` and
`BaseStorage.executeCommandsFromQueue`) -/

/-- A deferred command: the function together with the arguments it
was to be invoked with. -/
structure Command (φ π : Type) where
  fn : φ
  params : π
deriving DecidableEq, Repr

/-- Result of one `cachedCommand` call: the queue afterwards, the
promise outcome, and whether the wrapped function was invoked. -/
structure CachedCommandResult (φ π : Type) where
  queue : List (Command φ π)
  result : Except JsErr Unit
  invoked : Bool

/-- Model of `BaseStorage.cachedCommand`: when the adapter is not
connected the command is queued and the call resolves at once without
invoking the function; when connected the function is invoked (its
outcome is the `run` argument), an `OperationTimeout` failure queues
the command and resolves, and any other failure propagates. -/
def cachedCommand (status : ConnectionStatus) (queue : List (Command φ π))
    (fn : φ) (args : π) (run : Except JsErr Unit) : CachedCommandResult φ π :=
  if status ≠ ConnectionStatus.CONNECTED then
    { queue := queue ++ [⟨fn, args⟩], result := .ok (), invoked := false }
  else
    match run with
    | .ok _ => { queue := queue, result := .ok (), invoked := true }
    | .error e =>
      if isOperationTimeoutError e then
        { queue := queue ++ [⟨fn, args⟩], result := .ok (), invoked := true }
      else { queue := queue, result := .error e, invoked := true }

/-- Model of `BaseStorage.executeCommandsFromQueue`: the queue is
snapshot, every command in it is invoked once (first component: the
invocation sequence), and the commands whose invocation raised are
collected — with their original `fn` and `params` — as the new queue
(second component).  The source dispatches the invocations through
`Promise.all`; this sequential model schedules them in queue order,
and the theorems below state only order-independent facts. -/
def executeCommandsFromQueue (queue : List (Command φ π))
    (run : Command φ π → Except JsErr Unit) : List (Command φ π) × List (Command φ π) :=
  match queue with
  | [] => ([], [])
  | c :: rest =>
    let p := executeCommandsFromQueue rest run
    match run c with
    | .ok _ => (c :: p.1, p.2)
    | .error _ => (c :: p.1, c :: p.2)

/-! ### touch (`BaseStorage.touch`, current draft with the empty-tags
guard) -/

/-- Contents of the tags adapter. -/
def TagStore : Type := String → Option String

/-- Model of `BaseStorage.setTagVersions`: writes each tag's version
under its version key via one `mset`. -/
def setTagVersions (keyPrefix : String) (tags : List Tag) (store : TagStore) : TagStore :=
  tags.foldl
    (fun st t => fun k => if k = createTagKey keyPrefix t.name then some (toString t.version)
      else st k)
    store

/-- Result of one `touch` call: queued `setTagVersions` payloads, the
tags-adapter contents, how many adapter `mset` calls were performed,
and the outcome. -/
structure TouchResult where
  queue : List (List Tag)
  store : TagStore
  msetCalls : Nat
  result : Except JsErr Unit

/-- Model of `BaseStorage.touch`: an empty tag list does nothing; a
non-empty one goes through `cachedCommand(setTagVersions, tags.map(createTag))`
— queued when not connected, performed (one `mset`) when connected,
re-queued when the invocation times out, propagated otherwise.
`msetRun` is the adapter outcome of the `mset` when it is attempted. -/
def touch (keyPrefix : String) (status : ConnectionStatus) (queue : List (List Tag))
    (store : TagStore) (tags : List String) (now : Int) (msetRun : Except JsErr Unit) :
    TouchResult :=
  if tags.length > 0 then
    let payload := tags.map (createTag · now)
    if status ≠ ConnectionStatus.CONNECTED then
      { queue := queue ++ [payload], store := store, msetCalls := 0, result := .ok () }
    else
      match msetRun with
      | .ok _ =>
        { queue := queue, store := setTagVersions keyPrefix payload store, msetCalls := 1,
          result := .ok () }
      | .error e =>
        if isOperationTimeoutError e then
          { queue := queue ++ [payload], store := store, msetCalls := 1, result := .ok () }
        else { queue := queue, store := store, msetCalls := 1, result := .error e }
  else { queue := queue, store := store, msetCalls := 0, result := .ok () }

/-! ### Cache facade (`Cache.ts`) -/

/-- Operations that reach a storage adapter. -/
inductive AdapterOp where
  | get (key : String) : AdapterOp
  | set (key : String) : AdapterOp
  | del (key : String) : AdapterOp
  | mget : AdapterOp
  | mset : AdapterOp
  | acquireLock (key : String) : AdapterOp
  | releaseLock (key : String) : AdapterOp
  | isLockExists (key : String) : AdapterOp
deriving DecidableEq, Repr

/-- Error for an executor resolving with `undefined`. -/
def executorReturnsUndefinedError : JsErr :=
  customError ERRORS_ExecutorReturnsUndefinedError
    "Executor should not return undefined. Correct value for emptiness is null."

/-- Model of `runExecutor`: an `undefined` executor result is a
programming error, anything else is passed through. -/
def runExecutor (result : JSVal) : Except JsErr JSVal :=
  if isUndef result then .error executorReturnsUndefinedError else .ok result

/-- Read options of the cache facade: manager selection and
expiry. -/
structure CacheReadOptions where
  manager : Option String
  expiresIn : Option Int

/-- A registered manager's `get`, abstracted as its result together
with the adapter operations it performs. -/
def ManagerGetFn : Type := CacheReadOptions → Except JsErr JSVal × List AdapterOp

/-- Model of `Cache.get`: when the storage's connection status is not
`CONNECTED` the executor runs directly and nothing reaches the
adapter; otherwise the named manager (default `refresh-ahead`) handles
the call with the `expiresIn` default applied, and an unknown manager
name is an error. -/
def cacheGet (status : ConnectionStatus) (executorResult : JSVal)
    (options : CacheReadOptions) (cacheExpiresIn : Int)
    (managers : String → Option ManagerGetFn) : Except JsErr JSVal × List AdapterOp :=
  if status ≠ ConnectionStatus.CONNECTED then (runExecutor executorResult, [])
  else
    let managerName := options.manager.getD "refresh-ahead"
    let computedOptions : CacheReadOptions :=
      { options with expiresIn := some (options.expiresIn.getD cacheExpiresIn) }
    match managers managerName with
    | none =>
      (.error (customError "Error" ("Unknown manager " ++ managerName)), [])
    | some mgr => mgr computedOptions

/-! ### WaitForResultLockedKeyRetrieveStrategy -/

/-- One iteration's observations: the clock at the budget check, the
lock state read when within budget, and — when the lock is free — the
record found (represented by its `value` text, the record being typed
`Record<string>`; `none` covers both the null and the undefined
record). -/
structure PollObs where
  now : Int
  locked : Bool
  record : Option String

/-- Model of `WaitForResultLockedKeyRetrieveStrategy.get`'s
`retryRequest` loop over a trace of observations: within budget, a
released lock yields the decoded record value or the `WaitForResult`
error when no record exists; a held lock waits and retries; an
exhausted budget raises `RequestMaximumTimeoutExceeded` with the
configured maximum.  `none` means the trace ended with the loop still
polling. -/
def waitForResultPoll (startTime maximumTimeout : Int) :
    List PollObs → Option (Except JsErr JSVal)
  | [] => none
  | o :: rest =>
    if o.now < startTime + maximumTimeout then
      if !o.locked then
        some (match o.record with
          | none => .error waitForResultError
          | some text => deserialize text)
      else waitForResultPoll startTime maximumTimeout rest
    else some (.error (requestMaximumTimeoutExceededError maximumTimeout))

/-! ## The claims -/

/-- C1: the claim states that `WriteThroughManager.set` always
produces a record with `permanent = true`.  The code contradicts it:
the manager passes `permanent: true`, but the `Record` constructor
ignores that option and computes `permanent` as `expiresIn === 0`, so
any caller-supplied non-zero `expiresIn` — for instance 500 here, or
the one-day default every `Cache.set` fills in — yields a
non-permanent record, and the non-zero `expiresIn` is also handed to
the adapter as a TTL. -/
theorem claim_C1 :
    ((writeThroughSet "k" (.jstr "v")
        { WriteOptions.empty with expiresIn := some 500 } 1000).1).permanent = false ∧
    ((writeThroughSet "k" (.jstr "v")
        { WriteOptions.empty with expiresIn := some 500 } 1000).1).expiresIn = 500 ∧
    ((writeThroughSet "k" (.jstr "v")
        { WriteOptions.empty with expiresIn := some 0 } 1000).1).permanent = true := by
  refine ⟨rfl, rfl, rfl⟩

/-- C4: `cachedCommand` queues the command and resolves successfully
without invoking the function whenever the adapter is not connected;
when connected it invokes the function, re-queues on an
`OperationTimeout` failure (still resolving successfully), and
propagates every other failure with the queue unchanged. -/
theorem claim_C4 {φ π : Type} : ∀ (status : ConnectionStatus) (queue : List (Command φ π))
    (fn : φ) (args : π) (run : Except JsErr Unit),
    (status ≠ ConnectionStatus.CONNECTED →
      cachedCommand status queue fn args run =
        { queue := queue ++ [⟨fn, args⟩], result := .ok (), invoked := false }) ∧
    (status = ConnectionStatus.CONNECTED →
      (cachedCommand status queue fn args run).invoked = true ∧
      (∀ e, run = .error e → isOperationTimeoutError e = true →
        cachedCommand status queue fn args run =
          { queue := queue ++ [⟨fn, args⟩], result := .ok (), invoked := true }) ∧
      (∀ e, run = .error e → isOperationTimeoutError e = false →
        cachedCommand status queue fn args run =
          { queue := queue, result := .error e, invoked := true })) := by
  intro status queue fn args run
  refine ⟨fun h => by simp [cachedCommand, h], fun h => ⟨?_, ?_, ?_⟩⟩
  · cases run with
    | ok u => simp [cachedCommand, h]
    | error e =>
      by_cases ht : isOperationTimeoutError e = true <;> simp [cachedCommand, h, ht]
  · intro e hrun ht
    subst hrun
    simp [cachedCommand, h, ht]
  · intro e hrun ht
    subst hrun
    simp [cachedCommand, h, ht]

/-- C4 witness: a disconnected `touch`-style command is queued without
invocation, and a connected one whose invocation times out is invoked
and re-queued. -/
theorem claim_C4_witness :
    (ConnectionStatus.DISCONNECTED ≠ ConnectionStatus.CONNECTED ∧
      cachedCommand (φ := String) (π := Nat) ConnectionStatus.DISCONNECTED [] "touch" 3
          (.ok ()) =
        { queue := [⟨"touch", 3⟩], result := .ok (), invoked := false }) ∧
    (isOperationTimeoutError (operationTimeoutError 150) = true ∧
      cachedCommand (φ := String) (π := Nat) ConnectionStatus.CONNECTED [] "touch" 3
          (.error (operationTimeoutError 150)) =
        { queue := [⟨"touch", 3⟩], result := .ok (), invoked := true }) :=
  ⟨⟨by decide,
    (claim_C4 ConnectionStatus.DISCONNECTED [] "touch" 3 (.ok ())).1 (by decide)⟩,
    ⟨by decide,
    ((claim_C4 ConnectionStatus.CONNECTED [] "touch" 3
        (.error (operationTimeoutError 150))).2 rfl).2.1 _ rfl (by decide)⟩⟩

/-- C5: one drain cycle invokes every queued command exactly once (the
invocation sequence is the queue snapshot itself), and the queue
afterwards holds exactly the commands whose invocation raised, with
their original function and parameters — counted with multiplicity,
every succeeding command having been removed. -/
theorem claim_C5 {φ π : Type} [DecidableEq φ] [DecidableEq π] :
    ∀ (queue : List (Command φ π)) (run : Command φ π → Except JsErr Unit),
    (executeCommandsFromQueue queue run).1 = queue ∧
    ∀ c : Command φ π,
      ((executeCommandsFromQueue queue run).2).count c =
        (match run c with
          | .ok _ => 0
          | .error _ => queue.count c) := by
  intro queue run
  induction queue with
  | nil =>
    refine ⟨rfl, fun c => ?_⟩
    cases run c <;> simp [executeCommandsFromQueue]
  | cons hd tl ih =>
    constructor
    · rw [executeCommandsFromQueue]
      cases hrun : run hd <;> simp [hrun, ih.1]
    · intro c
      have ihc := ih.2 c
      rw [executeCommandsFromQueue]
      by_cases hc : c = hd
      · subst hc
        cases hrun : run c with
        | ok u =>
          rw [hrun] at ihc
          simp [hrun, ihc]
        | error e =>
          rw [hrun] at ihc
          simp [hrun, List.count_cons, ihc]
      · cases hrun : run hd with
        | ok u =>
          cases hrunc : run c with
          | ok u2 =>
            rw [hrunc] at ihc
            simp [hrun, hrunc, ihc]
          | error e2 =>
            rw [hrunc] at ihc
            simp [hrun, hrunc, List.count_cons, hc, ihc]
        | error e =>
          cases hrunc : run c with
          | ok u2 =>
            rw [hrunc] at ihc
            simp [hrun, hrunc, List.count_cons, hc, ihc]
          | error e2 =>
            rw [hrunc] at ihc
            simp [hrun, hrunc, List.count_cons, hc, ihc]

/-- C5 witness: a two-command queue where the first invocation raises
and the second succeeds retains exactly the first command. -/
theorem claim_C5_witness :
    (executeCommandsFromQueue (φ := String) (π := Nat) [⟨"a", 1⟩, ⟨"b", 2⟩]
        (fun c => if c.fn = "a" then .error (operationTimeoutError 150) else .ok ())).1 =
      [⟨"a", 1⟩, ⟨"b", 2⟩] ∧
    ((executeCommandsFromQueue (φ := String) (π := Nat) [⟨"a", 1⟩, ⟨"b", 2⟩]
        (fun c => if c.fn = "a" then .error (operationTimeoutError 150) else .ok ())).2).count
        ⟨"a", 1⟩ = 1 :=
  ⟨(claim_C5 _ _).1, by
    rw [(claim_C5 [⟨"a", 1⟩, ⟨"b", 2⟩]
      (fun c => if c.fn = "a" then .error (operationTimeoutError 150) else .ok ())).2
      ⟨"a", 1⟩]
    decide⟩

/-- C6: when the storage's connection status at entry is anything
other than `CONNECTED`, `Cache.get` returns the executor's result and
performs no adapter operation at all. -/
theorem claim_C6 : ∀ (status : ConnectionStatus) (executorResult : JSVal)
    (options : CacheReadOptions) (cacheExpiresIn : Int)
    (managers : String → Option ManagerGetFn),
    status ≠ ConnectionStatus.CONNECTED →
    cacheGet status executorResult options cacheExpiresIn managers
      = (runExecutor executorResult, []) := by
  intro status executorResult options cacheExpiresIn managers h
  simp [cacheGet, h]

/-- C6 witness: with a disconnected adapter the executor's value comes
back and the adapter-operation trace is empty. -/
theorem claim_C6_witness :
    ConnectionStatus.DISCONNECTED ≠ ConnectionStatus.CONNECTED ∧
    cacheGet ConnectionStatus.DISCONNECTED (.jnum 1) ⟨none, none⟩ 86400000 (fun _ => none)
      = (.ok (.jnum 1), []) :=
  ⟨by decide,
    (claim_C6 ConnectionStatus.DISCONNECTED (.jnum 1) ⟨none, none⟩ 86400000 (fun _ => none)
      (by decide)).trans rfl⟩

/-- C8 counterexample: the claim states construction throws for every
finite factor `f ≤ 0`, but at `f = 0` the `||` defaulting replaces the
falsy 0 with 0.8 and construction succeeds. -/
theorem claim_C8_counterexample :
    refreshAheadFactorInit (some 0) = .ok 0.8 ∧
    refreshAheadFactorInit (some 0) ≠ .error "Refresh-Ahead factor should be more than 0" := by
  constructor
  · norm_num [refreshAheadFactorInit, jsOrDefault, DEFAULT_REFRESH_AHEAD_FACTOR]
  · norm_num [refreshAheadFactorInit, jsOrDefault, DEFAULT_REFRESH_AHEAD_FACTOR]
    intro h
    cases h

/-- C8 (amended): the constructor throws for finite `f < 0`, throws
for finite `f ≥ 1`, succeeds using `f` for `0 < f < 1`, and uses the
default 0.8 when the factor is omitted — or when it equals 0, which
the `||` default treats like an absent value. -/
theorem claim_C8 : ∀ f : ℚ,
    (f < 0 → refreshAheadFactorInit (some f)
      = .error "Refresh-Ahead factor should be more than 0") ∧
    (1 ≤ f → refreshAheadFactorInit (some f)
      = .error "Refresh-Ahead factor should be under 1") ∧
    (0 < f → f < 1 → refreshAheadFactorInit (some f) = .ok f) ∧
    refreshAheadFactorInit none = .ok DEFAULT_REFRESH_AHEAD_FACTOR ∧
    refreshAheadFactorInit (some 0) = .ok DEFAULT_REFRESH_AHEAD_FACTOR := by
  intro f
  refine ⟨fun h => ?_, fun h => ?_, fun h1 h2 => ?_, ?_, ?_⟩
  · have hne : f ≠ 0 := by intro h0; rw [h0] at h; exact absurd h (by norm_num)
    simp only [refreshAheadFactorInit, jsOrDefault, hne, if_false]
    rw [if_pos (le_of_lt h)]
  · have hne : f ≠ 0 := by intro h0; rw [h0] at h; norm_num at h
    simp only [refreshAheadFactorInit, jsOrDefault, hne, if_false]
    rw [if_neg (by linarith), if_pos h]
  · have hne : f ≠ 0 := ne_of_gt h1
    simp only [refreshAheadFactorInit, jsOrDefault, hne, if_false]
    rw [if_neg (by linarith), if_neg (by linarith)]
  · norm_num [refreshAheadFactorInit, jsOrDefault, DEFAULT_REFRESH_AHEAD_FACTOR]
  · norm_num [refreshAheadFactorInit, jsOrDefault, DEFAULT_REFRESH_AHEAD_FACTOR]

/-- C8 witness: a negative factor and a factor of 2 are rejected, and
one half is accepted as given. -/
theorem claim_C8_witness :
    ((-1 : ℚ) < 0 ∧ refreshAheadFactorInit (some (-1))
      = .error "Refresh-Ahead factor should be more than 0") ∧
    ((1 : ℚ) ≤ 2 ∧ refreshAheadFactorInit (some 2)
      = .error "Refresh-Ahead factor should be under 1") ∧
    ((0 : ℚ) < 1/2 ∧ (1/2 : ℚ) < 1 ∧ refreshAheadFactorInit (some (1/2)) = .ok (1/2)) :=
  ⟨⟨by norm_num, (claim_C8 (-1)).1 (by norm_num)⟩,
    ⟨by norm_num, (claim_C8 2).2.1 (by norm_num)⟩,
    ⟨by norm_num, by norm_num, (claim_C8 (1/2)).2.2.1 (by norm_num) (by norm_num)⟩⟩

/-- C10: touching the empty tag list is a no-op — no adapter call is
made, nothing is queued, and every stored tag version is left
unchanged. -/
theorem claim_C10 : ∀ (keyPrefix : String) (status : ConnectionStatus)
    (queue : List (List Tag)) (store : TagStore) (now : Int) (msetRun : Except JsErr Unit),
    touch keyPrefix status queue store [] now msetRun
      = { queue := queue, store := store, msetCalls := 0, result := .ok () } := by
  intro keyPrefix status queue store now msetRun
  simp [touch]

/-- C7: whenever `WaitForResult` observes, within the time budget,
that the lock is released, it returns the decoded record value when a
record is present and fails with the `WaitForResult` error when none
is; and whenever an iteration begins with the elapsed time beyond
`maximumTimeout`, it fails with `RequestMaximumTimeoutExceeded`
carrying that timeout.  The poll history up to that iteration consists
of in-budget observations of a held lock. -/
theorem claim_C7 : ∀ (startTime maximumTimeout : Int) (earlier : List PollObs) (obs : PollObs)
    (trailing : List PollObs),
    (∀ p ∈ earlier, p.now < startTime + maximumTimeout ∧ p.locked = true) →
    ((obs.now < startTime + maximumTimeout → obs.locked = false →
        waitForResultPoll startTime maximumTimeout (earlier ++ obs :: trailing)
          = some (match obs.record with
              | none => Except.error waitForResultError
              | some text => deserialize text)) ∧
      (startTime + maximumTimeout < obs.now →
        waitForResultPoll startTime maximumTimeout (earlier ++ obs :: trailing)
          = some (.error (requestMaximumTimeoutExceededError maximumTimeout)))) := by
  intro startTime maximumTimeout earlier obs trailing hearlier
  induction earlier with
  | nil =>
    constructor
    · intro h1 h2
      rw [List.nil_append, waitForResultPoll, if_pos h1, h2]
      simp
    · intro h1
      rw [List.nil_append, waitForResultPoll, if_neg (by omega)]
  | cons p rest ih =>
    have hp := hearlier p (by simp)
    have ih' := ih fun q hq => hearlier q (by simp [hq])
    rw [List.cons_append, waitForResultPoll, if_pos hp.1, hp.2]
    simpa using ih'

/-- C7 witness: with a 100ms budget from time 0, a poll at time 10
finding the lock released and no record fails with `WaitForResult`,
and a poll at time 150 after an in-budget locked observation fails
with the maximum-timeout error carrying 100. -/
theorem claim_C7_witness :
    ((10 : Int) < 0 + 100 ∧
      waitForResultPoll 0 100 [⟨10, false, none⟩] = some (.error waitForResultError)) ∧
    ((0 : Int) + 100 < 150 ∧
      waitForResultPoll 0 100 [⟨5, true, none⟩, ⟨150, false, some "1"⟩]
        = some (.error (requestMaximumTimeoutExceededError 100))) :=
  ⟨⟨by decide,
    (claim_C7 0 100 [] ⟨10, false, none⟩ [] (by simp)).1 (by decide) rfl⟩,
    ⟨by decide,
    (claim_C7 0 100 [⟨5, true, none⟩] ⟨150, false, some "1"⟩ []
      (by intro p hp; simp at hp; simp [hp])).2 (by decide)⟩⟩

/-- C9 counterexample: the claim states that `BaseStorage.get` returns
absent without raising on every decoded non-record envelope, including
the decoded null envelope.  But on the stored text `"null"`,
`Record.isRecord` evaluates
`Object.prototype.hasOwnProperty.call(null, "key")`, which throws a
TypeError, so `get` raises instead of returning absent. -/
theorem claim_C9_counterexample :
    deserialize "null" = .ok .jnull ∧
    baseStorageGet (some "null")
      = .error (typeError "Cannot convert undefined or null to object") := by
  constructor
  · simp [deserialize, jsonParse, parseVal, stripPfx]
  · simp [baseStorageGet, deserialize, jsonParse, parseVal, stripPfx, isRecord,
      typeofIsObject, hasOwnPropertyKey]

/-- C9 (amended): for every stored text whose decoding yields an
envelope that is not a well-formed record, `BaseStorage.get` returns
absent without raising — for objects missing an own `key` member, for
arrays, and for string, number and boolean envelopes — except the
decoded null envelope, on which the `isRecord` check itself throws a
TypeError, which `get` propagates. -/
theorem claim_C9 : ∀ (text : String) (env : JSVal), deserialize text = .ok env →
    (∀ fs, env = .jobj fs → fs.any (fun f => f.1 == "key") = false →
        baseStorageGet (some text) = .ok none) ∧
    (∀ l, env = .jarr l → baseStorageGet (some text) = .ok none) ∧
    (∀ s, env = .jstr s → baseStorageGet (some text) = .ok none) ∧
    (∀ n, env = .jnum n → baseStorageGet (some text) = .ok none) ∧
    (∀ b, env = .jbool b → baseStorageGet (some text) = .ok none) ∧
    (env = .jnull →
      baseStorageGet (some text)
        = .error (typeError "Cannot convert undefined or null to object")) := by
  intro text env hdes
  refine ⟨fun fs henv hkey => ?_, fun l henv => ?_, fun s henv => ?_, fun n henv => ?_,
    fun b henv => ?_, fun henv => ?_⟩ <;> subst henv <;>
    simp [baseStorageGet, hdes, isRecord, typeofIsObject, hasOwnPropertyKey]
  intro x hx
  have h := List.any_eq_false.mp hkey ("key", x) hx
  simp at h

/-- C9 witness: the stored text `"1"` decodes to a number envelope and
`get` returns absent without raising. -/
theorem claim_C9_witness :
    deserialize "1" = .ok (.jnum 1) ∧ baseStorageGet (some "1") = .ok none := by
  have hdes : deserialize "1" = .ok (.jnum 1) := by
    simp [deserialize, jsonParse, parseVal, stripPfx, parseNum, headIs, takeDigits, isDigitCh,
      natOfDigits, digitVal]
  exact ⟨hdes, (claim_C9 "1" (.jnum 1) hdes).2.2.2.1 1 rfl⟩

/-- For a recorded tag of the list, coverage by the fetched versions
fails exactly when the stored version moved strictly past the recorded
one. -/
theorem any_comparator_iff {tags : List Tag} {stored : String → Int} {rt : Tag}
    (hmem : rt ∈ tags) :
    ((tags.map fun t => (⟨t.name, stored t.name⟩ : Tag)).any (isTagOutdatedComparator rt)
        = false) ↔ rt.version < stored rt.name := by
  constructor
  · intro hany
    have hin : (⟨rt.name, stored rt.name⟩ : Tag)
        ∈ tags.map fun t => (⟨t.name, stored t.name⟩ : Tag) :=
      List.mem_map.mpr ⟨rt, hmem, rfl⟩
    have hc := List.any_eq_false.mp hany _ hin
    simp [isTagOutdatedComparator] at hc
    omega
  · intro hlt
    rw [List.any_eq_false]
    intro a ha
    obtain ⟨t, -, rfl⟩ := List.mem_map.mp ha
    simp only [isTagOutdatedComparator, Bool.and_eq_true, beq_iff_eq, decide_eq_true_eq,
      not_and, ge_iff_le]
    intro hname
    rw [← hname]
    omega

/-- C3: `isOutdated` answers false when the record has no tags, true
when the version fetch fails (fail-invalid), and otherwise true
exactly when some recorded tag's stored version is strictly greater
than the version the record carries. -/
theorem claim_C3 : ∀ (keyPrefix : String) (backend : Except JsErr (String → Option String))
    (r : Record),
    (r.tags = [] → isOutdated keyPrefix backend r = false) ∧
    (∀ e, backend = .error e → r.tags ≠ [] → isOutdated keyPrefix backend r = true) ∧
    (∀ lookup, backend = .ok lookup →
      (isOutdated keyPrefix backend r = true ↔
        ∃ t ∈ r.tags,
          t.version < jsNumberOrZero (lookup (createTagKey keyPrefix t.name)))) := by
  intro keyPrefix backend r
  refine ⟨fun h => ?_, fun e hb hne => ?_, fun lookup hb => ?_⟩
  · simp [isOutdated, h]
  · subst hb
    have hlen : r.tags.length ≠ 0 := by simpa [List.length_eq_zero] using hne
    have hnames : ¬((r.tags.map (·.name)).length = 0) := by simpa using hlen
    simp [isOutdated, getTags, hlen, hnames]
  · subst hb
    by_cases hz : r.tags = []
    · simp [isOutdated, hz]
    · have hlen : r.tags.length ≠ 0 := by simpa [List.length_eq_zero] using hz
      have hnames : ¬((r.tags.map (·.name)).length = 0) := by simpa using hlen
      have hgt : getTags keyPrefix (.ok lookup) (r.tags.map (·.name))
          = .ok (r.tags.map fun t =>
              (⟨t.name, jsNumberOrZero (lookup (createTagKey keyPrefix t.name))⟩ : Tag)) := by
        rw [getTags, if_neg hnames]
        simp [List.map_map, Function.comp]
      rw [isOutdated, if_pos hlen, hgt]
      simp only [decide_eq_true_eq, Ne, List.length_eq_zero, differenceWith,
        List.filter_eq_nil_iff]
      push_neg
      constructor
      · rintro ⟨rt, hmem, hpred⟩
        refine ⟨rt, hmem, ?_⟩
        rw [Bool.not_eq_true'] at hpred
        exact (@any_comparator_iff r.tags
          (fun n => jsNumberOrZero (lookup (createTagKey keyPrefix n))) rt hmem).mp hpred
      · rintro ⟨rt, hmem, hlt⟩
        exact ⟨rt, hmem, by
          rw [Bool.not_eq_true']
          exact (@any_comparator_iff r.tags
            (fun n => jsNumberOrZero (lookup (createTagKey keyPrefix n))) rt hmem).mpr hlt⟩

/-- C3 witness: a record tagged `(t, 5)` is outdated under a stored
version 7, outdated under a failing fetch, and a tagless record is
fresh. -/
theorem claim_C3_witness :
    isOutdated "" (.ok fun k => if k = "cache-tags-versions:t" then some "7" else none)
        ⟨"k", .jnull, [⟨"t", 5⟩], true, 0, 0⟩ = true ∧
    isOutdated "" (.error (operationTimeoutError 150))
        ⟨"k", .jnull, [⟨"t", 5⟩], true, 0, 0⟩ = true ∧
    isOutdated "" (.ok fun _ => none) ⟨"k", .jnull, [], true, 0, 0⟩ = false :=
  ⟨((claim_C3 "" (.ok fun k => if k = "cache-tags-versions:t" then some "7" else none)
        ⟨"k", .jnull, [⟨"t", 5⟩], true, 0, 0⟩).2.2 _ rfl).mpr
      ⟨⟨"t", 5⟩, by decide, by decide⟩,
    (claim_C3 "" (.error (operationTimeoutError 150))
        ⟨"k", .jnull, [⟨"t", 5⟩], true, 0, 0⟩).2.1 _ rfl (by decide),
    (claim_C3 "" (.ok fun _ => none) ⟨"k", .jnull, [], true, 0, 0⟩).1 rfl⟩

/-- A value without `undefined` inside is itself not `undefined`. -/
theorem isUndef_of_noUndef {v : JSVal} (h : noUndef v = true) : isUndef v = false := by
  cases v <;> simp [isUndef] <;> simp [noUndef] at h

/-- Canonicalization leaves a serialized tag array unchanged. -/
theorem canonElems_tagJS (tags : List Tag) :
    canonElems (tags.map tagJS) = tags.map tagJS := by
  induction tags with
  | nil => simp [canonElems]
  | cons t ts ih =>
    simp only [List.map_cons]
    rw [canonElems]
    rw [show canon (tagJS t) = tagJS t by
      rw [tagJS, canon]
      rw [show canonFields [("name", JSVal.jstr t.name), ("version", JSVal.jnum t.version)]
        = [("name", JSVal.jstr t.name), ("version", JSVal.jnum t.version)] by
          rw [canonFields, canonFields, canonFields]
          simp [isUndef, canon]]]
    simp [isUndef, tagJS, ih]

/-- Canonicalization of a record envelope whose value has a text
form: every field survives unchanged, the double-encoded value
included. -/
theorem canon_envelope (r : Record) {s : List Char} (hps : printVal r.value = some s) :
    canon (Record.envelope r) = .jobj
      [("key", .jstr r.key), ("value", .jstr (String.mk s)),
        ("tags", .jarr (r.tags.map tagJS)), ("permanent", .jbool r.permanent),
        ("expiresIn", .jnum r.expiresIn), ("createdAt", .jnum r.createdAt)] := by
  rw [Record.envelope, hps, canon]
  rw [canonFields, canonFields, canonFields, canonFields, canonFields, canonFields,
    canonFields]
  simp [isUndef, canon, canonElems_tagJS]

/-- Reading back what `BaseStorage.set` just wrote yields the
canonicalized envelope: the stored text deserializes, passes the
`isRecord` guard, and comes back as a present record. -/
theorem baseStorageGet_set (k : String) (v : JSVal) (options : WriteOptions) (now : Int)
    (hnu : noUndef v = true) :
    baseStorageGet (some (baseStorageSet k v options now).2)
      = .ok (some (canon (Record.envelope (baseStorageSet k v options now).1))) := by
  have hiu : isUndef v = false := isUndef_of_noUndef hnu
  have hvv : (baseStorageSet k v options now).1.value = v := rfl
  obtain ⟨inner, hinner⟩ : ∃ s, printVal (baseStorageSet k v options now).1.value = some s :=
    ⟨_, by rw [hvv]; exact printVal_of_not_undef hiu⟩
  obtain ⟨es, hes⟩ : ∃ s, printVal (Record.envelope (baseStorageSet k v options now).1)
      = some s := ⟨_, printVal_of_not_undef rfl⟩
  have htext : (baseStorageSet k v options now).2 = String.mk es := by
    rw [show (baseStorageSet k v options now).2
      = String.mk ((printVal (Record.envelope (baseStorageSet k v options now).1)).getD [])
      from rfl, hes]
    rfl
  have hdes : deserialize (String.mk es)
      = .ok (canon (Record.envelope (baseStorageSet k v options now).1)) := by
    rw [deserialize, jsonParse_print hes]
  have hcenv := canon_envelope (baseStorageSet k v options now).1 hinner
  have hisrec : isRecord (canon (Record.envelope (baseStorageSet k v options now).1))
      = .ok true := by
    rw [hcenv, isRecord]
    simp [typeofIsObject, hasOwnPropertyKey]
  rw [htext, baseStorageGet, hdes]
  simp only []
  rw [hisrec]
  simp

/-- C2: a storage `set` followed immediately by a Read-Through `get`
that finds the written record valid returns the written value in its
canonical form — `Infinity` and `NaN` replaced by null — because the
double-encoding of the record's value on write and the double-decoding
on read compose to the identity. -/
theorem claim_C2 : ∀ (k : String) (v : JSVal) (options : WriteOptions) (now now2 : Int)
    (keyPrefix : String) (tagBackend : Except JsErr (String → Option String))
    (res : Except JsErr JSVal),
    noUndef v = true →
    readThroughGet (some (baseStorageSet k v options now).2) now2 keyPrefix tagBackend
      = .hit res →
    res = .ok (canon v) := by
  intro k v options now now2 keyPrefix tagBackend res hnu hhit
  have hiu : isUndef v = false := isUndef_of_noUndef hnu
  have hvv : (baseStorageSet k v options now).1.value = v := rfl
  obtain ⟨inner, hinner⟩ : ∃ s, printVal (baseStorageSet k v options now).1.value = some s :=
    ⟨_, by rw [hvv]; exact printVal_of_not_undef hiu⟩
  have hget := baseStorageGet_set k v options now hnu
  have hcenv := canon_envelope (baseStorageSet k v options now).1 hinner
  rw [readThroughGet, hget] at hhit
  simp only [] at hhit
  by_cases hvalid : readThroughIsRecordValid
      (some (canon (Record.envelope (baseStorageSet k v options now).1))) now2 keyPrefix
      tagBackend = true
  · rw [if_pos hvalid] at hhit
    have hval : envField (canon (Record.envelope (baseStorageSet k v options now).1)) "value"
        = .jstr (String.mk inner) := by
      rw [hcenv]
      simp [envField, jsGet]
    rw [hval] at hhit
    have hdec : deserializeField (JSVal.jstr (String.mk inner)) = .ok (canon v) := by
      rw [deserializeField, deserialize, jsonParse_print (hvv ▸ hinner)]
    rw [hdec] at hhit
    cases hhit
    rfl
  · rw [if_neg hvalid] at hhit
    cases hhit

/-- C2 witness: `set("test", "123")` then an immediate Read-Through
`get` with no tag movement is a hit returning `"123"`. -/
theorem claim_C2_witness :
    noUndef (.jstr "123") = true ∧
    readThroughGet (some (baseStorageSet "test" (.jstr "123")
          { WriteOptions.empty with expiresIn := some 0 } 1).2) 2 "" (.ok fun _ => none)
      = .hit (.ok (.jstr "123")) ∧
    (Except.ok (.jstr "123") : Except JsErr JSVal) = .ok (canon (.jstr "123")) := by
  have h1 : noUndef (.jstr "123") = true := by simp [noUndef]
  have hiu : isUndef (.jstr "123") = false := by simp [isUndef]
  have hvv : (baseStorageSet "test" (.jstr "123")
      { WriteOptions.empty with expiresIn := some 0 } 1).1.value = .jstr "123" := rfl
  obtain ⟨inner, hinner⟩ : ∃ s, printVal (baseStorageSet "test" (.jstr "123")
      { WriteOptions.empty with expiresIn := some 0 } 1).1.value = some s :=
    ⟨_, by rw [hvv]; exact printVal_of_not_undef hiu⟩
  have hget := baseStorageGet_set "test" (.jstr "123")
    { WriteOptions.empty with expiresIn := some 0 } 1 h1
  have hcenv := canon_envelope (baseStorageSet "test" (.jstr "123")
    { WriteOptions.empty with expiresIn := some 0 } 1).1 hinner
  have h2 : readThroughGet (some (baseStorageSet "test" (.jstr "123")
        { WriteOptions.empty with expiresIn := some 0 } 1).2) 2 "" (.ok fun _ => none)
      = .hit (.ok (.jstr "123")) := by
    rw [readThroughGet, hget]
    simp only []
    have hvalid : readThroughIsRecordValid
        (some (canon (Record.envelope (baseStorageSet "test" (.jstr "123")
          { WriteOptions.empty with expiresIn := some 0 } 1).1))) 2 "" (.ok fun _ => none)
        = true := by
      rw [hcenv]
      rw [show (baseStorageSet "test" (.jstr "123")
        { WriteOptions.empty with expiresIn := some 0 } 1).1.tags = [] from rfl]
      rw [show (baseStorageSet "test" (.jstr "123")
        { WriteOptions.empty with expiresIn := some 0 } 1).1.permanent = true from rfl]
      simp [readThroughIsRecordValid, envField, jsGet, jsTruthy, envTagsNonempty, isUndef]
    rw [if_pos hvalid]
    have hval : envField (canon (Record.envelope (baseStorageSet "test" (.jstr "123")
          { WriteOptions.empty with expiresIn := some 0 } 1).1)) "value"
        = .jstr (String.mk inner) := by
      rw [hcenv]
      simp [envField, jsGet]
    rw [hval]
    rw [deserializeField, deserialize, jsonParse_print (hvv ▸ hinner)]
    rw [show canon (.jstr "123") = .jstr "123" by rw [canon]]
  exact ⟨h1, h2, claim_C2 "test" (.jstr "123")
    { WriteOptions.empty with expiresIn := some 0 } 1 2 "" (.ok fun _ => none)
    (.ok (.jstr "123")) h1 h2⟩

end Cachalot
